import Mathlib

/-!
Verification of the async-chat broadcast server
(`src/async-chat/src/bin/server/{group,group_table,connection}.rs`).

The server code builds on the tokio `broadcast` channel, whose ring-buffer,
cursor and lag semantics are library code not present in this repository;
that channel is modelled here from the specification's ring-buffer-plus-cursor
design (§4.1).  Everything else (`Group`, `GroupTable`, the connection
dispatch loop and the subscriber delivery loop) is embedded directly from
the Rust source.
-/

namespace AsyncChat

/-- `FromServer` packets (`src/async-chat/src/lib.rs`): messages relayed from a
group, and error reports. -/
inductive FromServer where
  | Message (group_name : String) (message : String)
  | Error (message : String)
  deriving DecidableEq, Repr

/-- `FromClient` packets (`src/async-chat/src/lib.rs`): join a group, or post a
message to a group. -/
inductive FromClient where
  | Join (group_name : String)
  | Post (group_name : String) (message : String)
  deriving DecidableEq, Repr

/-- Result of one receive attempt on a broadcast subscription.  `Pending`
stands for the receiver suspending because no new message is available yet. -/
inductive PollResult where
  | Delivered (m : String)
  | Lagged (n : Nat)
  | Closed
  | Pending
  deriving DecidableEq, Repr

/-- Modelled from the spec: the tokio broadcast channel used by `Group`
(ring buffer of fixed capacity, a `next_seq` counter, a live-receiver count,
and a closed flag).  Its implementation is library code outside this
repository; the spec (§4.1, §9) prescribes the ring-buffer-plus-cursor
design embedded here. -/
structure Channel where
  capacity : Nat
  buffer : List String
  nextSeq : Nat
  receivers : Nat
  closed : Bool
  deriving DecidableEq, Repr

namespace Channel

/-- Modelled from the spec: `broadcast::channel(cap)` — empty ring, sequence
counter at zero, no receivers, open. -/
def new (cap : Nat) : Channel :=
  { capacity := cap, buffer := [], nextSeq := 0, receivers := 0, closed := false }

/-- Sequence number of the oldest message still retained in the ring. -/
def oldestRetained (c : Channel) : Nat :=
  c.nextSeq - c.buffer.length

/-- Modelled from the spec: `sender.send(m)`.  With no live receivers the
message is not stored (the send reports an error that `Group::post` ignores);
otherwise the message gets sequence number `nextSeq`, is appended to the ring
(evicting the oldest retained message when the ring is full), and `nextSeq`
is incremented. -/
def send (c : Channel) (m : String) : Channel :=
  if c.receivers = 0 then c
  else
    { c with
      buffer := if c.buffer.length = c.capacity then c.buffer.tail ++ [m] else c.buffer ++ [m]
      nextSeq := c.nextSeq + 1 }

/-- Modelled from the spec: `sender.subscribe()` — registers one more live
receiver and hands back a cursor initialized to the current `nextSeq`. -/
def subscribe (c : Channel) : Channel × Nat :=
  ({ c with receivers := c.receivers + 1 }, c.nextSeq)

/-- Modelled from the spec: one receive attempt at position `cursor`.
If the cursor fell behind the oldest retained message, fast-forward it and
report `Lagged` with the exact number of missed messages; if a retained
message is available, deliver it and advance the cursor; otherwise the
receiver suspends (`Pending`), or observes `Closed` once the channel is
closed. -/
def poll (c : Channel) (cursor : Nat) : PollResult × Nat :=
  if cursor < c.oldestRetained then
    (.Lagged (c.oldestRetained - cursor), c.oldestRetained)
  else if cursor < c.nextSeq then
    (.Delivered (c.buffer.getD (cursor - c.oldestRetained) ""), cursor + 1)
  else if c.closed then
    (.Closed, cursor)
  else
    (.Pending, cursor)

/-- Closing the channel (server shutdown). -/
def close (c : Channel) : Channel :=
  { c with closed := true }

end Channel

/-- `group::Group` (`group.rs`): a name plus the broadcast sender state.  The
Rust constructor fixes the channel capacity at 1000. -/
structure Group where
  name : String
  channel : Channel
  deriving DecidableEq, Repr

namespace Group

/-- `Group::new` (`group.rs` lines 34–37): create the broadcast channel with
capacity 1000 and drop the initial receiver. -/
def new (name : String) : Group :=
  { name := name, channel := Channel.new 1000 }

/-- `Group::post` (`group.rs` lines 45–50): send on the broadcast channel and
ignore the error the send reports when there are no subscribers.  Total: it
returns a group for every input and never fails. -/
def post (g : Group) (m : String) : Group :=
  { g with channel := g.channel.send m }

/-- The channel half of `Group::join` (`group.rs` lines 39–43): subscribe a
fresh receiver; the returned cursor is the new subscription's position.
(The spawned `handle_subscriber` task is modelled separately.) -/
def join (g : Group) : Group × Nat :=
  let (c, cursor) := g.channel.subscribe
  ({ g with channel := c }, cursor)

end Group

/-- `group_table::GroupTable` (`group_table.rs`): the mutex-protected hash map
from group name to group, embedded as an association list with distinct keys.
The mutex serializes `get` / `get_or_create`, so the sequential semantics here
is exactly what any interleaving of calls observes. -/
abbrev GroupTable := List (String × Group)

namespace GroupTable

/-- `GroupTable::new` (`group_table.rs`): empty map. -/
def new : GroupTable := []

/-- `GroupTable::get` (`group_table.rs` lines 18–20): read-only lookup that
never creates an entry. -/
def get (t : GroupTable) (name : String) : Option Group :=
  List.lookup name t

/-- `GroupTable::get_or_create` (`group_table.rs` lines 22–25):
`entry(name).or_insert_with(|| Group::new(name))` under the table mutex —
a single atomic insert-if-absent returning the (existing or new) group. -/
def get_or_create (t : GroupTable) (name : String) : Group × GroupTable :=
  match List.lookup name t with
  | some g => (g, t)
  | none => (Group.new name, (name, Group.new name) :: t)

/-- Update the stored group for a name that is present. -/
def setGroup (t : GroupTable) (name : String) (g : Group) : GroupTable :=
  t.map fun p => if p.1 = name then (name, g) else p

end GroupTable

/-- The error text `connection.rs` sends for a `Post` to an unknown group:
`format!("Group '{group_name}' does not exist")`. -/
def unknownGroupError (name : String) : String :=
  "Group '" ++ name ++ "' does not exist"

/-- The lag report `handle_subscriber` sends:
`format!("Dropped {n} messages from {group_name}.")`. -/
def lagReport (groupName : String) (n : Nat) : String :=
  "Dropped " ++ toString n ++ " messages from " ++ groupName ++ "."

/-- Outcome of dispatching one client request in `serve`
(`connection.rs` lines 21–43): the updated table, the error packet sent on
the outbound writer (if any), the subscription spawned (group name and
initial cursor, if any), and whether the read loop keeps reading. -/
structure DispatchResult where
  table : GroupTable
  reply : Option FromServer
  spawned : Option (String × Nat)
  continues : Bool
  deriving Repr

/-- One iteration of `serve`'s dispatch (`connection.rs` lines 21–43).
`Join`: `get_or_create` then `Group::join`, spawning a delivery task; never
fails.  `Post`: `get`; if absent, send `Error("Group '<name>' does not
exist")` and continue reading; if present, `Group::post` (cannot fail). -/
def serveStep (t : GroupTable) (req : FromClient) : DispatchResult :=
  match req with
  | .Join group_name =>
    let (g, t') := t.get_or_create group_name
    let (g', cursor) := g.join
    { table := t'.setGroup group_name g'
      reply := none
      spawned := some (group_name, cursor)
      continues := true }
  | .Post group_name message =>
    match t.get group_name with
    | some g =>
      { table := t.setGroup group_name (g.post message)
        reply := none
        spawned := none
        continues := true }
    | none =>
      { table := t
        reply := some (.Error (unknownGroupError group_name))
        spawned := none
        continues := true }

/-- Result of one completed `receiver.recv().await` in `handle_subscriber`
(`group.rs` lines 54–73): the three constructors of
`Result<T, RecvError>` the match distinguishes. -/
inductive RecvResult where
  | Ok (m : String)
  | Lagged (n : Nat)
  | Closed
  deriving DecidableEq, Repr

/-- A completed `recv().await` seen from the channel model: `Pending` means
the call suspends and no loop iteration happens yet. -/
def toRecv : PollResult → Option RecvResult
  | .Delivered m => some (.Ok m)
  | .Lagged n => some (.Lagged n)
  | .Closed => some .Closed
  | .Pending => none

/-- One iteration of the `handle_subscriber` loop (`group.rs` lines 54–73):
from the receive outcome and whether `outbound.send` succeeds, the packet
written to the outbound writer (if any) and whether the loop continues.
`Ok` builds a `Message` packet, `Lagged n` builds the dropped-message
`Error` packet, `Closed` breaks; after either send, a failure breaks. -/
def handleIter (groupName : String) (r : RecvResult) (sendOk : Bool) :
    Option FromServer × Bool :=
  match r with
  | .Ok m => (some (.Message groupName m), sendOk)
  | .Lagged n => (some (.Error (lagReport groupName n)), sendOk)
  | .Closed => (none, false)

/-- One subscription's history: the cursor it received at `subscribe` time,
its current cursor, and the `(sequence number, message)` pairs delivered to
it so far. -/
structure Sub where
  initCursor : Nat
  cursor : Nat
  delivered : List (Nat × String)
  deriving DecidableEq, Repr

/-- A group's channel together with the global log of posted messages (the
message with sequence number `i` is `log[i]`) and its subscriptions. -/
structure SysState where
  chan : Channel
  log : List String
  subs : List Sub
  deriving DecidableEq, Repr

/-- Fresh group state: new channel of capacity `cap`, nothing posted, no
subscribers. -/
def SysState.init (cap : Nat) : SysState :=
  { chan := Channel.new cap, log := [], subs := [] }

/-- Events of a group's lifetime: a `Group::post`, a `Group::join`
subscription, channel closure, and one receive attempt by subscription `i`. -/
inductive SysEvent where
  | post (m : String)
  | join
  | close
  | poll (i : Nat)
  deriving DecidableEq, Repr

/-- One step of the group system. -/
def sysStep (s : SysState) (e : SysEvent) : SysState :=
  match e with
  | .post m =>
    { s with
      chan := s.chan.send m
      log := if s.chan.receivers = 0 then s.log else s.log ++ [m] }
  | .join =>
    let (c, cursor) := s.chan.subscribe
    { s with chan := c, subs := s.subs ++ [⟨cursor, cursor, []⟩] }
  | .close => { s with chan := s.chan.close }
  | .poll i =>
    match s.subs.get? i with
    | none => s
    | some sub =>
      let (r, cursor') := s.chan.poll sub.cursor
      let sub' : Sub :=
        match r with
        | .Delivered m =>
          { sub with cursor := cursor', delivered := sub.delivered ++ [(sub.cursor, m)] }
        | _ => { sub with cursor := cursor' }
      { s with subs := s.subs.set i sub' }

/-- Run a list of events from a state. -/
def sysRun (s : SysState) (es : List SysEvent) : SysState :=
  es.foldl sysStep s

/-- Well-formedness of one subscription against the channel and log. -/
def SubOk (s : SysState) (sub : Sub) : Prop :=
  sub.initCursor ≤ sub.cursor ∧ sub.cursor ≤ s.chan.nextSeq ∧
    (∀ p ∈ sub.delivered,
      sub.initCursor ≤ p.1 ∧ p.1 < sub.cursor ∧ s.log.get? p.1 = some p.2) ∧
    (sub.delivered.map Prod.fst).Pairwise (· < ·) ∧
    (sub.delivered.map Prod.snd).Sublist (s.log.take sub.cursor)

/-- The system invariant: the ring buffer is exactly the suffix of the log
of the last `min capacity (log length)` messages, the sequence counter counts
the log, the receiver count matches the subscription list, and every
subscription is well formed. -/
structure SysInv (s : SysState) : Prop where
  capPos : 0 < s.chan.capacity
  seqEq : s.chan.nextSeq = s.log.length
  bufEq : s.chan.buffer = s.log.drop (s.log.length - s.chan.buffer.length)
  bufLen : s.chan.buffer.length = min s.chan.capacity s.log.length
  recvEq : s.chan.receivers = s.subs.length
  subsOk : ∀ sub ∈ s.subs, SubOk s sub

theorem capacity_sysStep (s : SysState) (e : SysEvent) :
    (sysStep s e).chan.capacity = s.chan.capacity := by
  cases e with
  | post m =>
    simp only [sysStep, Channel.send]
    split <;> rfl
  | join => rfl
  | close => rfl
  | poll i =>
    simp only [sysStep]
    cases s.subs.get? i <;> rfl

theorem capacity_sysRun (s : SysState) (es : List SysEvent) :
    (sysRun s es).chan.capacity = s.chan.capacity := by
  induction es generalizing s with
  | nil => rfl
  | cons e es ih => rw [sysRun, List.foldl_cons, ← sysRun, ih, capacity_sysStep]

theorem send_eq_of_receivers_zero (c : Channel) (m : String)
    (h : c.receivers = 0) : c.send m = c := by
  simp [Channel.send, h]

theorem sysInv_step {s : SysState} (hs : SysInv s) (e : SysEvent) :
    SysInv (sysStep s e) := by
  obtain ⟨hcap, hseq, hbuf, hlen, hrecv, hsubs⟩ := hs
  cases e with
  | post m =>
    by_cases h0 : s.chan.receivers = 0
    · simp only [sysStep, send_eq_of_receivers_zero _ _ h0, h0, if_pos rfl]
      exact ⟨hcap, hseq, hbuf, hlen, hrecv, hsubs⟩
    · have hle : s.chan.buffer.length ≤ s.log.length := by omega
      simp only [sysStep, Channel.send, if_neg h0]
      by_cases hfull : s.chan.buffer.length = s.chan.capacity
      · have hlen1 : 1 ≤ s.chan.buffer.length := by omega
        simp only [if_pos hfull]
        refine ⟨hcap, ?_, ?_, ?_, hrecv, ?_⟩
        · dsimp only
          simp only [List.length_append, List.length_cons, List.length_nil]
          omega
        · dsimp only
          have hamt : (s.log ++ [m]).length - (s.chan.buffer.tail ++ [m]).length
              = (s.log.length - s.chan.buffer.length) + 1 := by
            simp only [List.length_append, List.length_tail, List.length_cons,
              List.length_nil]
            omega
          rw [hamt, List.drop_append_of_le_length (by omega)]
          congr 1
          conv_lhs => rw [hbuf]
          rw [List.tail_drop]
        · dsimp only
          simp only [List.length_append, List.length_tail, List.length_cons,
            List.length_nil]
          omega
        · intro sub hmem
          dsimp only
          obtain ⟨h1, h2, h3, h4, h5⟩ := hsubs sub hmem
          refine ⟨h1, le_trans h2 (Nat.le_succ _), ?_, h4, ?_⟩
          · intro p hp
            obtain ⟨ha, hb', hc⟩ := h3 p hp
            refine ⟨ha, hb', ?_⟩
            rw [List.get?_eq_getElem?]
            dsimp only
            rw [List.getElem?_append_left (by omega), ← List.get?_eq_getElem?]
            exact hc
          · rw [List.take_append_of_le_length (by omega)]
            exact h5
      · have hltcap : s.chan.buffer.length < s.chan.capacity := by omega
        have heqn : s.chan.buffer.length = s.log.length := by omega
        have hb : s.chan.buffer = s.log := by
          rw [hbuf, heqn, Nat.sub_self, List.drop_zero]
        simp only [if_neg hfull]
        refine ⟨hcap, ?_, ?_, ?_, hrecv, ?_⟩
        · simp only [List.length_append, List.length_cons, List.length_nil]
          omega
        · have hamt : (s.log ++ [m]).length - (s.chan.buffer ++ [m]).length = 0 := by
            simp only [List.length_append, List.length_cons, List.length_nil]
            omega
          rw [hamt, List.drop_zero, hb]
        · simp only [List.length_append, List.length_cons, List.length_nil]
          omega
        · intro sub hmem
          obtain ⟨h1, h2, h3, h4, h5⟩ := hsubs sub hmem
          refine ⟨h1, le_trans h2 (Nat.le_succ _), ?_, h4, ?_⟩
          · intro p hp
            obtain ⟨ha, hb', hc⟩ := h3 p hp
            refine ⟨ha, hb', ?_⟩
            rw [List.get?_eq_getElem?]
            dsimp only
            rw [List.getElem?_append_left (by omega), ← List.get?_eq_getElem?]
            exact hc
          · rw [List.take_append_of_le_length (by omega)]
            exact h5
  | join =>
    simp only [sysStep, Channel.subscribe]
    refine ⟨hcap, hseq, hbuf, hlen, ?_, ?_⟩
    · simp only [List.length_append, List.length_cons, List.length_nil]
      omega
    · intro sub hmem
      rcases List.mem_append.mp hmem with h | h
      · exact hsubs sub h
      · have hsub : sub = ⟨s.chan.nextSeq, s.chan.nextSeq, []⟩ := by
          simpa using h
        subst hsub
        refine ⟨le_refl _, le_refl _, ?_, ?_, ?_⟩
        · intro p hp
          simp at hp
        · simp
        · simp
  | close =>
    exact ⟨hcap, hseq, hbuf, hlen, hrecv, hsubs⟩
  | poll i =>
    simp only [sysStep]
    cases hget : s.subs.get? i with
    | none => exact ⟨hcap, hseq, hbuf, hlen, hrecv, hsubs⟩
    | some sub =>
      have hmem : sub ∈ s.subs := List.get?_mem hget
      obtain ⟨h1, h2, h3, h4, h5⟩ := hsubs sub hmem
      by_cases hlag : sub.cursor < s.chan.oldestRetained
      · simp only [Channel.poll, if_pos hlag]
        refine ⟨hcap, hseq, hbuf, hlen, ?_, ?_⟩
        · simp only [List.length_set]
          exact hrecv
        · intro x hx
          rcases List.mem_or_eq_of_mem_set hx with h | rfl
          · exact hsubs x h
          · refine ⟨le_trans h1 (le_of_lt hlag), Nat.sub_le _ _, ?_, h4, ?_⟩
            · intro p hp
              obtain ⟨ha, hb', hc⟩ := h3 p hp
              exact ⟨ha, lt_trans hb' hlag, hc⟩
            · exact h5.trans (List.take_prefix_take_left _ (le_of_lt hlag)).sublist
      · by_cases hdel : sub.cursor < s.chan.nextSeq
        · simp only [Channel.poll, if_neg hlag, if_pos hdel]
          have hoc : s.chan.oldestRetained ≤ sub.cursor := Nat.le_of_not_lt hlag
          have hcn : sub.cursor < s.log.length := by omega
          have ho' : s.chan.oldestRetained = s.log.length - s.chan.buffer.length := by
            unfold Channel.oldestRetained
            omega
          have hbufdrop : s.chan.buffer = s.log.drop s.chan.oldestRetained := by
            rw [ho']
            exact hbuf
          have hidx : s.chan.oldestRetained + (sub.cursor - s.chan.oldestRetained)
              = sub.cursor := by omega
          have h9 : s.chan.buffer[sub.cursor - s.chan.oldestRetained]?
              = s.log[sub.cursor]? := by
            rw [hbufdrop, List.getElem?_drop, hidx]
          have h10 : s.log[sub.cursor]? = some (s.log.get ⟨sub.cursor, hcn⟩) := by
            rw [← List.get?_eq_getElem?]
            exact List.get?_eq_get hcn
          have h11 : s.chan.buffer.getD (sub.cursor - s.chan.oldestRetained) ""
              = s.log.get ⟨sub.cursor, hcn⟩ := by
            rw [List.getD_eq_getD_get?, List.get?_eq_getElem?, h9, h10]
            rfl
          refine ⟨hcap, hseq, hbuf, hlen, ?_, ?_⟩
          · simp only [List.length_set]
            exact hrecv
          · intro x hx
            rcases List.mem_or_eq_of_mem_set hx with h | rfl
            · exact hsubs x h
            · refine ⟨le_trans h1 (Nat.le_succ _), Nat.succ_le_of_lt hdel, ?_, ?_, ?_⟩
              · intro p hp
                rcases List.mem_append.mp hp with h | h
                · obtain ⟨ha, hb', hc⟩ := h3 p h
                  exact ⟨ha, Nat.lt_succ_of_lt hb', hc⟩
                · have hp' : p = (sub.cursor,
                      s.chan.buffer.getD (sub.cursor - s.chan.oldestRetained) "") := by
                    simpa using h
                  subst hp'
                  refine ⟨h1, Nat.lt_succ_self _, ?_⟩
                  dsimp only
                  rw [List.get?_eq_getElem?, h10, List.getD_eq_getD_get?,
                    List.get?_eq_getElem?, h9, h10]
                  rfl
              · rw [List.map_append, List.pairwise_append]
                refine ⟨h4, by simp, ?_⟩
                intro a ha b hb
                simp only [List.map_cons, List.map_nil, List.mem_singleton] at hb
                subst hb
                obtain ⟨p, hp, hpa⟩ := List.mem_map.mp ha
                obtain ⟨_, hb', _⟩ := h3 p hp
                omega
              · rw [List.map_append, List.take_succ, List.get?_eq_getElem?] at *
                rw [h10]
                refine List.Sublist.append h5 ?_
                rw [List.getD_eq_getD_get?, List.get?_eq_getElem?, h9, h10]
                exact List.Sublist.refl _
        · simp only [Channel.poll, if_neg hlag, if_neg hdel]
          by_cases hcl : s.chan.closed <;>
            · simp only [hcl, if_true, if_false, Bool.false_eq_true, ite_false, ite_true]
              refine ⟨hcap, hseq, hbuf, hlen, ?_, ?_⟩
              · simp only [List.length_set]
                exact hrecv
              · intro x hx
                rcases List.mem_or_eq_of_mem_set hx with h | rfl
                · exact hsubs x h
                · exact ⟨h1, h2, h3, h4, h5⟩

theorem sysInv_init (cap : Nat) (h : 0 < cap) : SysInv (SysState.init cap) := by
  refine ⟨h, rfl, rfl, by simp [SysState.init, Channel.new], rfl, ?_⟩
  intro sub hmem
  simp [SysState.init] at hmem

theorem sysInv_run {s : SysState} (hs : SysInv s) (es : List SysEvent) :
    SysInv (sysRun s es) := by
  induction es generalizing s with
  | nil => exact hs
  | cons e es ih => exact ih (sysInv_step hs e)

theorem get?_set_self {α : Type} (l : List α) (i : Nat) (b : α) (h : i < l.length) :
    (l.set i b).get? i = some b := by
  rw [List.get?_eq_getElem?]
  simp [List.getElem?_set, h]

theorem chan_sysStep_poll (s : SysState) (i : Nat) :
    (sysStep s (SysEvent.poll i)).chan = s.chan := by
  simp only [sysStep]
  cases s.subs.get? i <;> rfl

theorem log_sysStep_poll (s : SysState) (i : Nat) :
    (sysStep s (SysEvent.poll i)).log = s.log := by
  simp only [sysStep]
  cases s.subs.get? i <;> rfl

theorem subs_length_sysStep_poll (s : SysState) (i : Nat) :
    (sysStep s (SysEvent.poll i)).subs.length = s.subs.length := by
  simp only [sysStep]
  cases s.subs.get? i
  · rfl
  · simp only [List.length_set]

theorem sysRun_cons (s : SysState) (e : SysEvent) (es : List SysEvent) :
    sysRun s (e :: es) = sysRun (sysStep s e) es := rfl

theorem step_poll_lag {s : SysState} {i : Nat} {sub : Sub}
    (hget : s.subs.get? i = some sub) (hlag : sub.cursor < s.chan.oldestRetained) :
    (sysStep s (SysEvent.poll i)).subs.get? i
      = some { sub with cursor := s.chan.oldestRetained } := by
  have hi : i < s.subs.length := (List.get?_eq_some.mp hget).1
  simp only [sysStep, hget, Channel.poll, if_pos hlag]
  exact get?_set_self _ _ _ hi

theorem step_poll_deliver {s : SysState} (hs : SysInv s) {i : Nat} {sub : Sub}
    (hget : s.subs.get? i = some sub) (hoc : s.chan.oldestRetained ≤ sub.cursor)
    (hdel : sub.cursor < s.chan.nextSeq) :
    (sysStep s (SysEvent.poll i)).subs.get? i
      = some { sub with cursor := sub.cursor + 1
                        delivered := sub.delivered ++ [(sub.cursor, s.log.getD sub.cursor "")] } := by
  have hi : i < s.subs.length := (List.get?_eq_some.mp hget).1
  have ho' : s.chan.oldestRetained = s.log.length - s.chan.buffer.length := by
    have := hs.seqEq
    unfold Channel.oldestRetained
    omega
  have hbufdrop : s.chan.buffer = s.log.drop s.chan.oldestRetained := by
    rw [ho']
    exact hs.bufEq
  have hidx : s.chan.oldestRetained + (sub.cursor - s.chan.oldestRetained) = sub.cursor := by
    omega
  have hgd : s.chan.buffer.getD (sub.cursor - s.chan.oldestRetained) ""
      = s.log.getD sub.cursor "" := by
    rw [List.getD_eq_getD_get?, List.getD_eq_getD_get?, List.get?_eq_getElem?,
      List.get?_eq_getElem?, hbufdrop, List.getElem?_drop, hidx]
  simp only [sysStep, hget, Channel.poll, if_neg (Nat.not_lt.mpr hoc), if_pos hdel]
  rw [hgd]
  exact get?_set_self _ _ _ hi

theorem eventually_delivered (n : Nat) :
    ∀ {s : SysState}, SysInv s → ∀ {i : Nat} {sub : Sub}, s.subs.get? i = some sub →
    ∀ {t : Nat}, t - sub.cursor ≤ n → sub.cursor ≤ t →
    s.chan.oldestRetained ≤ t → t < s.chan.nextSeq →
    ∃ k sub', (sysRun s (List.replicate k (SysEvent.poll i))).subs.get? i = some sub' ∧
      (t, s.log.getD t "") ∈ sub'.delivered := by
  induction n with
  | zero =>
    intro s hs i sub hget t hn hct hot htn
    have hct' : sub.cursor = t := by omega
    have hstep := step_poll_deliver hs hget (by omega) (by omega)
    refine ⟨1, _, hstep, ?_⟩
    rw [hct']
    simp
  | succ n ih =>
    intro s hs i sub hget t hn hct hot htn
    have hs' := sysInv_step hs (SysEvent.poll i)
    by_cases hlag : sub.cursor < s.chan.oldestRetained
    · have hstep := step_poll_lag hget hlag
      obtain ⟨k, sub', hget', hmem⟩ := ih hs' hstep (t := t)
        (by simp only [chan_sysStep_poll]; omega)
        (by simp only [chan_sysStep_poll]; omega)
        (by rw [chan_sysStep_poll]; exact hot)
        (by rw [chan_sysStep_poll]; exact htn)
      rw [log_sysStep_poll] at hmem
      exact ⟨k + 1, sub', by rw [List.replicate_succ, sysRun_cons]; exact hget', hmem⟩
    · by_cases hteq : sub.cursor = t
      · have hstep := step_poll_deliver hs hget (Nat.le_of_not_lt hlag) (by omega)
        refine ⟨1, _, hstep, ?_⟩
        rw [hteq]
        simp
      · have hstep := step_poll_deliver hs hget (Nat.le_of_not_lt hlag) (by omega)
        obtain ⟨k, sub', hget', hmem⟩ := ih hs' hstep (t := t)
          (by dsimp only; omega)
          (by dsimp only; omega)
          (by rw [chan_sysStep_poll]; exact hot)
          (by rw [chan_sysStep_poll]; exact htn)
        rw [log_sysStep_poll] at hmem
        exact ⟨k + 1, sub', by rw [List.replicate_succ, sysRun_cons]; exact hget', hmem⟩

/-- C1: a subscription whose cursor is behind the oldest retained sequence
number gets `Lagged(oldest_retained_seq - cursor)` from its next poll, its
cursor is fast-forwarded to `oldest_retained_seq`, the next delivered message
is the oldest retained one, and the `handle_subscriber` loop does not
terminate on a lag (it continues whenever the error report is sent
successfully). -/
theorem lag_exact_and_resync {s : SysState} (hs : SysInv s) {cursor : Nat}
    (hlag : cursor < s.chan.oldestRetained) :
    (s.chan.poll cursor).1 = PollResult.Lagged (s.chan.oldestRetained - cursor) ∧
    (s.chan.poll cursor).2 = s.chan.oldestRetained ∧
    (s.chan.poll (s.chan.poll cursor).2).1 = PollResult.Delivered s.chan.buffer.headI ∧
    ∀ (g : String) (sendOk : Bool),
      (handleIter g (RecvResult.Lagged (s.chan.oldestRetained - cursor)) sendOk).2 = sendOk := by
  obtain ⟨hcap, hseq, hbuf, hlen, hrecv, hsubs⟩ := hs
  have h1 : (s.chan.poll cursor).1 = PollResult.Lagged (s.chan.oldestRetained - cursor) := by
    simp [Channel.poll, if_pos hlag]
  have h2 : (s.chan.poll cursor).2 = s.chan.oldestRetained := by
    simp [Channel.poll, if_pos hlag]
  have hlen1 : 1 ≤ s.chan.buffer.length := by
    unfold Channel.oldestRetained at hlag
    omega
  have hold : s.chan.oldestRetained < s.chan.nextSeq := by
    unfold Channel.oldestRetained at hlag ⊢
    omega
  refine ⟨h1, h2, ?_, fun g sendOk => rfl⟩
  rw [h2]
  simp only [Channel.poll, if_neg (lt_irrefl s.chan.oldestRetained), if_pos hold]
  cases hb : s.chan.buffer with
  | nil => rw [hb] at hlen1; simp at hlen1
  | cons a l => simp [hb, List.headI]

/-- C2: starting from a fresh group of positive capacity, after any sequence
of operations the ring buffer holds exactly the suffix of the global post log
starting at the oldest retained sequence number (the messages with sequence
numbers in `[next_seq - buffer_len, next_seq - 1]`), and never more than the
capacity fixed at construction. -/
theorem ring_buffer_window (cap : Nat) (hcap : 0 < cap) (es : List SysEvent) :
    (sysRun (SysState.init cap) es).chan.buffer.length ≤ cap ∧
    (sysRun (SysState.init cap) es).chan.nextSeq = (sysRun (SysState.init cap) es).log.length ∧
    (sysRun (SysState.init cap) es).chan.buffer
      = (sysRun (SysState.init cap) es).log.drop
          (sysRun (SysState.init cap) es).chan.oldestRetained := by
  have hinv := sysInv_run (sysInv_init cap hcap) es
  have hc : (sysRun (SysState.init cap) es).chan.capacity = cap :=
    capacity_sysRun (SysState.init cap) es
  obtain ⟨_, hseq, hbuf, hlen, _, _⟩ := hinv
  refine ⟨by omega, hseq, ?_⟩
  have : (sysRun (SysState.init cap) es).chan.oldestRetained
      = (sysRun (SysState.init cap) es).log.length
        - (sysRun (SysState.init cap) es).chan.buffer.length := by
    unfold Channel.oldestRetained
    omega
  rw [this]
  exact hbuf

/-- C5: dispatching a `Post` for a group name absent from the table sends
exactly one `Error` packet reading `Group '<name>' does not exist`, leaves
the table (and so every group) unchanged, spawns nothing, and the read loop
continues. -/
theorem post_unknown_group_isolated {t : GroupTable} {name m : String}
    (habs : t.get name = none) :
    serveStep t (FromClient.Post name m)
      = { table := t, reply := some (FromServer.Error (unknownGroupError name)),
          spawned := none, continues := true } ∧
    unknownGroupError name = "Group '" ++ name ++ "' does not exist" := by
  refine ⟨?_, rfl⟩
  simp [serveStep, habs]

/-- C6: `get_or_create` is insert-if-absent: with the name present it returns
the stored group and leaves the table unchanged; with it absent it inserts
exactly one entry (all other names unaffected); afterwards the stored entry
is what it returned, and a repeated call returns that same group with the
table unchanged — so at most one group is ever created per name (the table
mutex serializes the calls, making each one atomic). -/
theorem get_or_create_atomic (t : GroupTable) (name : String) :
    (∀ g, t.get name = some g → t.get_or_create name = (g, t)) ∧
    (t.get name = none →
      t.get_or_create name = (Group.new name, (name, Group.new name) :: t)) ∧
    (t.get_or_create name).2.get name = some (t.get_or_create name).1 ∧
    (∀ other, other ≠ name → (t.get_or_create name).2.get other = t.get other) ∧
    (t.get_or_create name).2.get_or_create name
      = ((t.get_or_create name).1, (t.get_or_create name).2) := by
  cases hlook : List.lookup name t with
  | some g0 =>
    refine ⟨?_, ?_, ?_, ?_, ?_⟩
    · intro g hg
      rw [GroupTable.get, hlook] at hg
      simp only [GroupTable.get_or_create, hlook]
      injection hg with hg
      rw [hg]
    · intro h
      rw [GroupTable.get, hlook] at h
      cases h
    · simp [GroupTable.get_or_create, hlook, GroupTable.get]
    · intro other hne
      simp [GroupTable.get_or_create, hlook]
    · simp [GroupTable.get_or_create, hlook]
  | none =>
    refine ⟨?_, ?_, ?_, ?_, ?_⟩
    · intro g hg
      rw [GroupTable.get, hlook] at hg
      cases hg
    · intro _
      simp [GroupTable.get_or_create, hlook]
    · simp [GroupTable.get_or_create, hlook, GroupTable.get]
    · intro other hne
      simp only [GroupTable.get_or_create, hlook, GroupTable.get, List.lookup]
      rw [show (other == name) = false from beq_eq_false_iff_ne.mpr hne]
    · simp [GroupTable.get_or_create, hlook, List.lookup]

/-- C7: `Group::post` is total — it returns a group for every input (the
send error with zero subscribers is ignored), with zero subscribers it
changes nothing, and the retained buffer stays within the fixed capacity
whatever the subscriber count. -/
theorem post_total_bounded (g : Group) (m : String)
    (hcap : 0 < g.channel.capacity)
    (hlen : g.channel.buffer.length ≤ g.channel.capacity) :
    (Group.post g m).channel.buffer.length ≤ g.channel.capacity ∧
    (g.channel.receivers = 0 → Group.post g m = g) := by
  constructor
  · simp only [Group.post, Channel.send]
    by_cases h0 : g.channel.receivers = 0
    · simp [h0]
      omega
    · by_cases hfull : g.channel.buffer.length = g.channel.capacity
      · simp only [if_neg h0, if_pos hfull]
        simp [List.length_tail]
        omega
      · simp only [if_neg h0, if_neg hfull]
        simp
        omega
  · intro h0
    rw [Group.post, send_eq_of_receivers_zero _ _ h0]

/-- C9: one iteration of the `handle_subscriber` loop breaks exactly when the
receive result is `Closed` or the outbound send failed; a `Lagged` result
never breaks the loop by itself; on `Closed` no packet is written (neither
trigger is reported as an error), and `Closed` only arises from the channel
being closed. -/
theorem delivery_loop_triggers (g : String) :
    (∀ (r : RecvResult) (sendOk : Bool),
      (handleIter g r sendOk).2 = false ↔ (r = RecvResult.Closed ∨ sendOk = false)) ∧
    (∀ sendOk : Bool, (handleIter g RecvResult.Closed sendOk).1 = none) ∧
    (∀ (n : Nat) (sendOk : Bool), (handleIter g (RecvResult.Lagged n) sendOk).2 = sendOk) ∧
    (∀ (c : Channel) (cur : Nat),
      toRecv (c.poll cur).1 = some RecvResult.Closed → c.closed = true) := by
  refine ⟨?_, fun _ => rfl, fun _ _ => rfl, ?_⟩
  · intro r sendOk
    cases r <;> cases sendOk <;> simp [handleIter]
  · intro c cur h
    unfold Channel.poll at h
    split_ifs at h with h1 h2 h3
    · simp [toRecv] at h
    · simp [toRecv] at h
    · exact h3
    · simp [toRecv] at h

theorem initCursor_stable (s : SysState) (e : SysEvent) {j : Nat} {sub : Sub}
    (hget : s.subs.get? j = some sub) :
    ∃ sub', (sysStep s e).subs.get? j = some sub'
      ∧ sub'.initCursor = sub.initCursor := by
  have hj : j < s.subs.length := (List.get?_eq_some.mp hget).1
  cases e with
  | post m => exact ⟨sub, hget, rfl⟩
  | close => exact ⟨sub, hget, rfl⟩
  | join =>
    refine ⟨sub, ?_, rfl⟩
    simp only [sysStep, Channel.subscribe]
    rw [List.get?_eq_getElem?, List.getElem?_append_left hj, ← List.get?_eq_getElem?]
    exact hget
  | poll i =>
    simp only [sysStep]
    cases hgi : s.subs.get? i with
    | none => exact ⟨sub, hget, rfl⟩
    | some sub0 =>
      by_cases hij : i = j
      · subst hij
        rw [hgi] at hget
        have hsub : sub0 = sub := Option.some.inj hget
        subst hsub
        refine ⟨_, get?_set_self _ _ _ hj, ?_⟩
        cases (s.chan.poll sub0.cursor).1 <;> rfl
      · refine ⟨sub, ?_, rfl⟩
        rw [List.get?_eq_getElem?, List.getElem?_set, if_neg hij,
          ← List.get?_eq_getElem?]
        exact hget

theorem initCursor_stable_run (es : List SysEvent) :
    ∀ {s : SysState} {j : Nat} {sub : Sub}, s.subs.get? j = some sub →
    ∃ sub', (sysRun s es).subs.get? j = some sub'
      ∧ sub'.initCursor = sub.initCursor := by
  induction es with
  | nil => exact fun hget => ⟨_, hget, rfl⟩
  | cons e es ih =>
    intro s j sub hget
    obtain ⟨sub1, hget1, heq1⟩ := initCursor_stable s e hget
    obtain ⟨sub2, hget2, heq2⟩ := ih hget1
    exact ⟨sub2, by rw [sysRun_cons]; exact hget2, by rw [heq2, heq1]⟩

/-- C3: a `join` creates a subscription whose cursor (and recorded initial
cursor) is the group's current `next_seq`; from then on, whatever events
happen, every message delivered to that subscription has a sequence number
at or after that `next_seq` — messages posted before the join (such as an
M1, M2 with smaller sequence numbers) are never delivered to it. -/
theorem join_sees_only_future {s : SysState} (hs : SysInv s) (es : List SysEvent) :
    (sysStep s SysEvent.join).subs.get? s.subs.length
      = some ⟨s.chan.nextSeq, s.chan.nextSeq, []⟩ ∧
    ∀ sub', (sysRun (sysStep s SysEvent.join) es).subs.get? s.subs.length = some sub' →
      sub'.initCursor = s.chan.nextSeq ∧ ∀ p ∈ sub'.delivered, s.chan.nextSeq ≤ p.1 := by
  have hjoin : (sysStep s SysEvent.join).subs.get? s.subs.length
      = some ⟨s.chan.nextSeq, s.chan.nextSeq, []⟩ := by
    simp only [sysStep, Channel.subscribe]
    exact List.get?_concat_length _ _
  refine ⟨hjoin, ?_⟩
  intro sub' hget'
  obtain ⟨sub2, hget2, heq2⟩ := initCursor_stable_run es hjoin
  rw [hget'] at hget2
  have hsub : sub2 = sub' := (Option.some.inj hget2).symm
  subst hsub
  have hic : sub2.initCursor = s.chan.nextSeq := heq2
  refine ⟨hic, ?_⟩
  have hinv := sysInv_run (sysInv_step hs SysEvent.join) es
  have hmem : sub2 ∈ (sysRun (sysStep s SysEvent.join) es).subs := List.get?_mem hget'
  obtain ⟨_, _, hdel, _, _⟩ := hinv.subsOk sub2 hmem
  intro p hp
  have := (hdel p hp).1
  omega

/-- C8: in every run of a group, every subscriber's delivered messages form a
subsequence of the group's global post order (the log in sequence-number
order), and the sequence numbers it observes are strictly increasing — so no
subscriber ever sees two messages of one group out of their global order, and
any two subscribers observe subsequences of the same total order. -/
theorem deliveries_subsequence (cap : Nat) (hcap : 0 < cap) (es : List SysEvent) :
    ∀ sub ∈ (sysRun (SysState.init cap) es).subs,
      (sub.delivered.map Prod.snd).Sublist (sysRun (SysState.init cap) es).log ∧
      (sub.delivered.map Prod.fst).Pairwise (· < ·) := by
  intro sub hmem
  obtain ⟨_, _, _, hpw, hsl⟩ := (sysInv_run (sysInv_init cap hcap) es).subsOk sub hmem
  exact ⟨hsl.trans (List.take_sublist _ _), hpw⟩

/-- Shared helper: after a post, polling subscription `i` enough times
delivers the posted message exactly once. -/
theorem post_then_delivered_once {s : SysState} (hs : SysInv s) (m : String)
    {i : Nat} {sub : Sub} (hget : s.subs.get? i = some sub) :
    ∃ k sub',
      (sysRun (sysStep s (SysEvent.post m))
          (List.replicate k (SysEvent.poll i))).subs.get? i = some sub' ∧
      (s.log.length, m) ∈ sub'.delivered ∧
      sub'.delivered.Nodup := by
  have hi : i < s.subs.length := (List.get?_eq_some.mp hget).1
  have hrec : s.chan.receivers ≠ 0 := by
    have := hs.recvEq
    omega
  have hs' := sysInv_step hs (SysEvent.post m)
  have hlog' : (sysStep s (SysEvent.post m)).log = s.log ++ [m] := by
    simp [sysStep, hrec]
  have hget' : (sysStep s (SysEvent.post m)).subs.get? i = some sub := hget
  have hseq' : (sysStep s (SysEvent.post m)).chan.nextSeq = s.log.length + 1 := by
    rw [hs'.seqEq, hlog']
    simp
  have hcur : sub.cursor ≤ s.log.length := by
    have h2 := (hs.subsOk sub (List.get?_mem hget)).2.1
    have := hs.seqEq
    omega
  have hlenb : (sysStep s (SysEvent.post m)).chan.buffer.length
      = min (sysStep s (SysEvent.post m)).chan.capacity (s.log.length + 1) := by
    rw [hs'.bufLen, hlog']
    simp
  have hold : (sysStep s (SysEvent.post m)).chan.oldestRetained ≤ s.log.length := by
    have hcap := hs'.capPos
    unfold Channel.oldestRetained
    omega
  obtain ⟨k, sub', hget2, hmem⟩ := eventually_delivered s.log.length hs' hget'
    (t := s.log.length) (by omega) hcur hold (by omega)
  have hgd : (sysStep s (SysEvent.post m)).log.getD s.log.length "" = m := by
    rw [hlog', List.getD_eq_getD_get?, List.get?_concat_length]
    rfl
  rw [hgd] at hmem
  have hinv3 := sysInv_run (sysInv_step hs (SysEvent.post m)) (List.replicate k (SysEvent.poll i))
  have hmem3 : sub' ∈ (sysRun (sysStep s (SysEvent.post m))
      (List.replicate k (SysEvent.poll i))).subs := List.get?_mem hget2
  obtain ⟨_, _, _, hpw, _⟩ := hinv3.subsOk sub' hmem3
  have hnd : sub'.delivered.Nodup := List.Nodup.of_map _ (hpw.imp Nat.ne_of_lt)
  exact ⟨k, sub', hget2, hmem, hnd⟩

/-- C4: after a message is posted to a group with at least one subscription,
every subscription of that group (whatever connection it belongs to — in
particular every one other than the poster's own) receives a copy: polling
it enough times delivers the message with the sequence number the post was
assigned. -/
theorem post_broadcast_to_all {s : SysState} (hs : SysInv s) (m : String)
    {i : Nat} {sub : Sub} (hget : s.subs.get? i = some sub) :
    ∃ k sub',
      (sysRun (sysStep s (SysEvent.post m))
          (List.replicate k (SysEvent.poll i))).subs.get? i = some sub' ∧
      (s.log.length, m) ∈ sub'.delivered := by
  obtain ⟨k, sub', h1, h2, _⟩ := post_then_delivered_once hs m hget
  exact ⟨k, sub', h1, h2⟩

/-- C10: a connection that issues `Join` for the same group twice gets two
independent subscriptions, one per `Join`, each with its own cursor
initialized to the group's current `next_seq` (duplicate joins are not
deduplicated and never fail: dispatching a `Join` always spawns a delivery
task and keeps reading); a message posted afterwards is delivered to each of
the two subscriptions exactly once — so the connection receives it once per
`Join` it issued. -/
theorem duplicate_joins_independent {s : SysState} (hs : SysInv s) (m : String) :
    (∀ (t : GroupTable) (name : String),
      (serveStep t (FromClient.Join name)).spawned
          = some (name, (t.get_or_create name).1.channel.nextSeq) ∧
      (serveStep t (FromClient.Join name)).continues = true) ∧
    (sysRun s [SysEvent.join, SysEvent.join]).subs.get? s.subs.length
      = some ⟨s.chan.nextSeq, s.chan.nextSeq, []⟩ ∧
    (sysRun s [SysEvent.join, SysEvent.join]).subs.get? (s.subs.length + 1)
      = some ⟨s.chan.nextSeq, s.chan.nextSeq, []⟩ ∧
    ∀ j, j = s.subs.length ∨ j = s.subs.length + 1 →
      ∃ k sub',
        (sysRun (sysStep (sysRun s [SysEvent.join, SysEvent.join]) (SysEvent.post m))
            (List.replicate k (SysEvent.poll j))).subs.get? j = some sub' ∧
        ((sysRun s [SysEvent.join, SysEvent.join]).log.length, m) ∈ sub'.delivered ∧
        sub'.delivered.Nodup := by
  have hsubs2 : (sysRun s [SysEvent.join, SysEvent.join]).subs
      = (s.subs ++ [⟨s.chan.nextSeq, s.chan.nextSeq, []⟩])
          ++ [⟨s.chan.nextSeq, s.chan.nextSeq, []⟩] := rfl
  have hA1 : (sysRun s [SysEvent.join, SysEvent.join]).subs.get? s.subs.length
      = some ⟨s.chan.nextSeq, s.chan.nextSeq, []⟩ := by
    rw [hsubs2, List.get?_eq_getElem?, List.getElem?_append_left (by simp),
      ← List.get?_eq_getElem?]
    exact List.get?_concat_length _ _
  have hA2 : (sysRun s [SysEvent.join, SysEvent.join]).subs.get? (s.subs.length + 1)
      = some ⟨s.chan.nextSeq, s.chan.nextSeq, []⟩ := by
    rw [hsubs2]
    have hlen : s.subs.length + 1
        = (s.subs ++ [(⟨s.chan.nextSeq, s.chan.nextSeq, []⟩ : Sub)]).length := by
      simp
    rw [hlen]
    exact List.get?_concat_length _ _
  refine ⟨?_, hA1, hA2, ?_⟩
  · intro t name
    cases hlook : List.lookup name t with
    | some g0 =>
      constructor <;>
        simp [serveStep, GroupTable.get_or_create, hlook, Group.join, Channel.subscribe]
    | none =>
      constructor <;>
        simp [serveStep, GroupTable.get_or_create, hlook, Group.join, Channel.subscribe]
  · have hs2 := sysInv_run hs [SysEvent.join, SysEvent.join]
    intro j hj
    rcases hj with rfl | rfl
    · exact post_then_delivered_once hs2 m hA1
    · exact post_then_delivered_once hs2 m hA2

/-- Witness for C1 at a concrete lagging state: capacity 1, one subscriber at
cursor 0, two posts; the poll reports the lag exactly. -/
theorem lag_exact_and_resync_witness :
    0 < (sysRun (SysState.init 1)
        [SysEvent.join, SysEvent.post "a", SysEvent.post "b"]).chan.oldestRetained ∧
    ((sysRun (SysState.init 1)
        [SysEvent.join, SysEvent.post "a", SysEvent.post "b"]).chan.poll 0).1
      = PollResult.Lagged ((sysRun (SysState.init 1)
          [SysEvent.join, SysEvent.post "a", SysEvent.post "b"]).chan.oldestRetained - 0) :=
  ⟨by decide,
    (lag_exact_and_resync
      (sysInv_run (sysInv_init 1 (by decide))
        [SysEvent.join, SysEvent.post "a", SysEvent.post "b"]) (by decide)).1⟩

/-- Witness for C2 at capacity 2 and three posts. -/
theorem ring_buffer_window_witness :
    0 < 2 ∧
    (sysRun (SysState.init 2)
        [SysEvent.join, SysEvent.post "a", SysEvent.post "b",
          SysEvent.post "c"]).chan.buffer.length ≤ 2 :=
  ⟨by decide,
    (ring_buffer_window 2 (by decide)
      [SysEvent.join, SysEvent.post "a", SysEvent.post "b", SysEvent.post "c"]).1⟩

/-- Witness for C3: the first join on a fresh group yields cursor 0. -/
theorem join_sees_only_future_witness :
    (sysStep (SysState.init 1) SysEvent.join).subs.get? (SysState.init 1).subs.length
      = some ⟨(SysState.init 1).chan.nextSeq, (SysState.init 1).chan.nextSeq, []⟩ :=
  (join_sees_only_future (sysInv_init 1 (by decide)) [SysEvent.post "a"]).1

/-- Witness for C4: one subscriber, one post, delivery observed. -/
theorem post_broadcast_to_all_witness :
    ∃ k sub',
      (sysRun (sysStep (sysRun (SysState.init 1) [SysEvent.join]) (SysEvent.post "hello"))
          (List.replicate k (SysEvent.poll 0))).subs.get? 0 = some sub' ∧
      ((sysRun (SysState.init 1) [SysEvent.join]).log.length, "hello") ∈ sub'.delivered :=
  post_broadcast_to_all
    (sysInv_run (sysInv_init 1 (by decide)) [SysEvent.join]) "hello"
    (by decide :
      (sysRun (SysState.init 1) [SysEvent.join]).subs.get? 0 = some ⟨0, 0, []⟩)

/-- Witness for C5 on the empty table and the name `ghost`. -/
theorem post_unknown_group_isolated_witness :
    GroupTable.new.get "ghost" = none ∧
    serveStep GroupTable.new (FromClient.Post "ghost" "hi")
      = { table := GroupTable.new,
          reply := some (FromServer.Error (unknownGroupError "ghost")),
          spawned := none, continues := true } :=
  ⟨rfl, (post_unknown_group_isolated (t := GroupTable.new) rfl).1⟩

/-- Witness for C7 on a freshly created group (capacity 1000, no
subscribers). -/
theorem post_total_bounded_witness :
    0 < (Group.new "g").channel.capacity ∧
    (Group.new "g").channel.buffer.length ≤ (Group.new "g").channel.capacity ∧
    (Group.post (Group.new "g") "x").channel.buffer.length
      ≤ (Group.new "g").channel.capacity :=
  ⟨by decide, by decide,
    (post_total_bounded (Group.new "g") "x" (by decide) (by decide)).1⟩

/-- Witness for C8: one subscriber polls one post; its deliveries are a
subsequence of the log. -/
theorem deliveries_subsequence_witness :
    0 < 1 ∧
    (((⟨0, 1, [(0, "a")]⟩ : Sub).delivered.map Prod.snd).Sublist
        (sysRun (SysState.init 1)
          [SysEvent.join, SysEvent.post "a", SysEvent.poll 0]).log ∧
      ((⟨0, 1, [(0, "a")]⟩ : Sub).delivered.map Prod.fst).Pairwise (· < ·)) :=
  ⟨by decide,
    deliveries_subsequence 1 (by decide)
      [SysEvent.join, SysEvent.post "a", SysEvent.poll 0]
      ⟨0, 1, [(0, "a")]⟩ (by decide)⟩

/-- Witness for C10: two joins on a fresh group create the subscription at
index 0 with cursor 0. -/
theorem duplicate_joins_independent_witness :
    (sysRun (SysState.init 1) [SysEvent.join, SysEvent.join]).subs.get?
        (SysState.init 1).subs.length
      = some ⟨(SysState.init 1).chan.nextSeq, (SysState.init 1).chan.nextSeq, []⟩ :=
  (duplicate_joins_independent (sysInv_init 1 (by decide)) "x").2.1

end AsyncChat
